import Mathlib

/-!
Verification of the valuation and earnings engine of a multi-owner
portfolio tracker (Streamlit app `app.py` + `utilities/operations.py`).

The engine is shallowly embedded:
* pandas DataFrames become `List` of record structures;
* `NaN` / nullable cells become `Option` values;
* Python `float` amounts become `ℚ`, with `round(x, 2)` modelled by
  `round2` (round-half-to-even at two decimals, the behaviour of
  Python's `round` on decimal ties);
* network calls (`api_request_fx`, `yf.download`, `yf.Ticker(...).history`)
  become oracle parameters of type `... → Option ...`, where `none`
  models the call failing (for `api_request_fx`, the Python function
  catches its own exception and returns `None`);
* a Python exception escaping a function is modelled by the function
  returning `none` in an outer `Option` layer;
* calendar dates become `ℕ` (day numbers); the `date_sell` column, which
  can hold a real date, SQL `NULL`/`NaT`, or the string `"OPEN"`, becomes
  the three-constructor type `DateVal`.
-/

set_option maxRecDepth 8000

namespace Portfolio

/-- Python `round(x, 2)`: round to two decimals, ties to even
(banker's rounding on the scaled integer).  Implemented on the
numerator/denominator so that it evaluates by kernel reduction:
with `x * 100 = N / d` (`d > 0`), the result is `⌊N/d⌋` or `⌈N/d⌉`
according to the fractional part `r/d`, ties going to the even
integer (`Int` division and modulus are Euclidean, so `N / d` is the
floor and `N % d` lies in `[0, d)`). -/
def round2 (x : ℚ) : ℚ :=
  let N : ℤ := x.num * 100
  let d : ℤ := (x.den : ℤ)
  let f : ℤ := N / d
  let r : ℤ := N % d
  let z : ℤ :=
    if 2 * r < d then f
    else if d < 2 * r then f + 1
    else if f % 2 = 0 then f else f + 1
  Rat.divInt z 100

/-- A value of the `date_sell` column: SQL `NULL`/`NaT`, a real calendar
date (day number), or the sentinel string `"OPEN"` written by
`api_current_price`. -/
inductive DateVal where
  | null : DateVal
  | date : ℕ → DateVal
  | sentinel : DateVal
deriving DecidableEq

/-- A raw transaction record as loaded from the `transactions` table
(`db_operations.load_data`). The sell leg is nullable. -/
structure Row where
  owner : String
  stock : String
  ticker : String
  currency : String
  price_buy : ℚ
  quantity_buy : ℚ
  date_buy : ℕ
  price_sell : Option ℚ
  quantity_sell : Option ℚ
  date_sell : DateVal
  dividends : ℚ
deriving DecidableEq

/-- A transaction enriched with the derived columns added by
`calculate_metrics` (`total_buy`, `total_sell`, `earning`).
`total_sell` and `earning` are `NaN` (here `none`) for open rows. -/
structure VRow where
  owner : String
  stock : String
  ticker : String
  currency : String
  price_buy : ℚ
  quantity_buy : ℚ
  date_buy : ℕ
  price_sell : Option ℚ
  quantity_sell : Option ℚ
  date_sell : DateVal
  dividends : ℚ
  total_buy : ℚ
  total_sell : Option ℚ
  earning : Option ℚ
deriving DecidableEq

/-- `operations.convert_open_to_eur(row, price, date, usd_rate, pln_rate)`:
divide by the pre-fetched USD or PLN rate when the row's currency is USD
or PLN and the date cell is not `NaN`; otherwise return the amount, only
rounded.  The amount is `Option`-valued because `row[price]` can be `NaN`
(`round` and `/` both propagate `NaN`). -/
def convert_open_to_eur (currency : String) (dv : DateVal) (amount : Option ℚ)
    (usd_rate pln_rate : ℚ) : Option ℚ :=
  if currency = "USD" ∧ dv ≠ DateVal.null then
    amount.map (fun a => round2 (a / usd_rate))
  else if currency = "PLN" ∧ dv ≠ DateVal.null then
    amount.map (fun a => round2 (a / pln_rate))
  else
    amount.map round2

/-- `operations.today_rate()`: fetch today's USD and PLN rates and round
each to two decimals.  `api_request_fx` is the oracle `fx`; if either
lookup fails it returns `None` and `round(None, 2)` raises, so the whole
call fails (`none`). -/
def today_rate (fx : String → ℕ → Option ℚ) (today : ℕ) : Option (ℚ × ℚ) :=
  match fx "USD" today, fx "PLN" today with
  | some u, some p => some (round2 u, round2 p)
  | _, _ => none

/-- The per-row body of `app.calculate_metrics`: add `total_buy`,
`total_sell` (with dividends if `include_dividends`), `earning`
(= total_sell − total_buy), then convert `earning` to EUR with the
pre-fetched rates via `convert_open_to_eur`. -/
def metricsRow (include_dividends : Bool) (usd_rate pln_rate : ℚ) (r : Row) : VRow :=
  let tb : ℚ := r.price_buy * r.quantity_buy
  let ts : Option ℚ :=
    match r.price_sell, r.quantity_sell with
    | some ps, some qs => some (ps * qs + (if include_dividends then r.dividends else 0))
    | _, _ => none
  let e : Option ℚ := ts.map (fun t => t - tb)
  { owner := r.owner, stock := r.stock, ticker := r.ticker, currency := r.currency
    price_buy := r.price_buy, quantity_buy := r.quantity_buy, date_buy := r.date_buy
    price_sell := r.price_sell, quantity_sell := r.quantity_sell
    date_sell := r.date_sell, dividends := r.dividends
    total_buy := tb, total_sell := ts
    earning := convert_open_to_eur r.currency r.date_sell e usd_rate pln_rate }

/-- `app.calculate_metrics(df, include_dividends)`: fetch today's rates
once (`today_rate`), then add the derived columns row by row.  If
`today_rate` raises, the whole computation fails. -/
def calculate_metrics (include_dividends : Bool) (fx : String → ℕ → Option ℚ)
    (today : ℕ) (df : List Row) : Option (List VRow) :=
  (today_rate fx today).map (fun rates =>
    df.map (metricsRow include_dividends rates.1 rates.2))

unseal Rat.add Rat.sub Rat.mul Rat.inv in
example :
    convert_open_to_eur "USD" (DateVal.date 2) (some 30) (11/10) 4 = some (2727/100) := by
  decide

unseal Rat.add Rat.sub Rat.mul Rat.inv in
example : round2 (25 : ℚ) = 25 := by decide

/-- `operations.convert_to_eur(row, price, date)`: if the currency is not
EUR and the date cell is not `NaN`, set the date cell to today and divide
the amount by `api_request_fx(currency, today)`; otherwise return the
amount rounded.  If the FX lookup fails, `api_request_fx` returns `None`
and the division raises a `TypeError`: the outer `Option` layer is `none`.
(The assignment `row[date] = today` happens on the row copy handed to
`DataFrame.apply`, so its only effect is the date used for the lookup.) -/
def convert_to_eur (fx : String → ℕ → Option ℚ) (today : ℕ)
    (currency : String) (dv : DateVal) (amount : Option ℚ) : Option (Option ℚ) :=
  if currency ≠ "EUR" ∧ dv ≠ DateVal.null then
    (fx currency today).map (fun rate => amount.map (fun a => round2 (a / rate)))
  else
    some (amount.map round2)

/-- Whether a row is open at entry to `api_current_price`
(`open_mask = df["date_sell"].isna()`, computed once before any update). -/
def isOpenRow (r : VRow) : Bool := r.date_sell = DateVal.null

/-- The per-(ticker, open row) update in `api_current_price`:
`total_sell = current_price * quantity_buy`,
`earning = round(total_sell - total_buy, 2)`, `date_sell = today`. -/
def priceUpdate (today : ℕ) (p : ℚ) (r : VRow) : VRow :=
  { r with total_sell := some (p * r.quantity_buy)
           earning := some (round2 (p * r.quantity_buy - r.total_buy))
           date_sell := DateVal.date today }

/-- Batched path, price-update loop (`for ticker, current_price in
ticker_prices.items()`): every row that was open at entry and whose ticker
got a price in the bulk fetch is price-updated.  Rows are tagged with
their entry openness (the pandas `open_mask` series is positional and
fixed at entry). -/
def batchPriceStep (m : String → Option ℚ) (today : ℕ)
    (t : List (VRow × Bool)) : List (VRow × Bool) :=
  t.map (fun x =>
    if x.2 then
      match m x.1.ticker with
      | some p => (priceUpdate today p x.1, x.2)
      | none => x
    else x)

/-- A `DataFrame.apply` over rows where each row can raise: if any row
raises, the whole call raises and nothing is assigned. -/
def mapOption {α β : Type} (f : α → Option β) : List α → Option (List β)
  | [] => some []
  | a :: l =>
    match f a, mapOption f l with
    | some b, some l2 => some (b :: l2)
    | _, _ => none

/-- Batched path, EUR conversion (`updated_mask = df["ticker"].isin(...) &
open_mask` then `apply(convert_to_eur)`): if the conversion of any row in
the mask raises, the whole `apply` raises before anything is assigned, so
the step yields `none` and no earning changes. -/
def batchConvertStep (fx : String → ℕ → Option ℚ) (today : ℕ)
    (m : String → Option ℚ) (t : List (VRow × Bool)) : Option (List (VRow × Bool)) :=
  mapOption (fun x =>
    if x.2 ∧ (m x.1.ticker).isSome then
      (convert_to_eur fx today x.1.currency x.1.date_sell x.1.earning).map
        (fun e => ({ x.1 with earning := e }, x.2))
    else some x) t

/-- Batched path, final relabelling
(`df.loc[updated_mask, "date_sell"] = "OPEN"`). -/
def batchSentinelStep (m : String → Option ℚ)
    (t : List (VRow × Bool)) : List (VRow × Bool) :=
  t.map (fun x =>
    if x.2 ∧ (m x.1.ticker).isSome then
      ({ x.1 with date_sell := DateVal.sentinel }, x.2)
    else x)

/-- Fallback path, per-ticker loop (`yf.Ticker(ticker).history(...)` with
`except: pass`): each row open at entry whose ticker's individual fetch
succeeds is price-updated; a per-ticker failure leaves its rows
untouched. -/
def fallbackPriceStep (pt : String → Option ℚ) (today : ℕ)
    (t : List (VRow × Bool)) : List (VRow × Bool) :=
  t.map (fun x =>
    if x.2 then
      match pt x.1.ticker with
      | some p => (priceUpdate today p x.1, x.2)
      | none => x
    else x)

/-- Fallback path, EUR conversion: the mask is
`updated_mask = df["date_sell"] == today` — every row whose *current*
`date_sell` equals today, whether the loop just set it or the transaction
was genuinely closed today.  A raising conversion propagates out of
`api_current_price` (this `apply` is not inside any `try`). -/
def fallbackConvertStep (fx : String → ℕ → Option ℚ) (today : ℕ)
    (t : List (VRow × Bool)) : Option (List (VRow × Bool)) :=
  mapOption (fun x =>
    if x.1.date_sell = DateVal.date today then
      (convert_to_eur fx today x.1.currency x.1.date_sell x.1.earning).map
        (fun e => ({ x.1 with earning := e }, x.2))
    else some x) t

/-- Fallback path, final relabelling with the same mask (the conversion
step does not touch `date_sell`, so recomputing the line-102 mask here is
exact). -/
def fallbackSentinelStep (today : ℕ) (t : List (VRow × Bool)) : List (VRow × Bool) :=
  t.map (fun x =>
    if x.1.date_sell = DateVal.date today then
      ({ x.1 with date_sell := DateVal.sentinel }, x.2)
    else x)

/-- The whole `except`-branch of `api_current_price`. -/
def apiFallback (pt : String → Option ℚ) (fx : String → ℕ → Option ℚ)
    (today : ℕ) (t : List (VRow × Bool)) : Option (List VRow) :=
  match fallbackConvertStep fx today (fallbackPriceStep pt today t) with
  | none => none
  | some t2 => some ((fallbackSentinelStep today t2).map (·.1))

/-- `operations.api_current_price(df)`.  Oracles: `batch` is the bulk
`yf.download` (`none` = the bulk call raised; `some m` = a price map
covering the tickers that returned data), `pt` is the per-ticker fallback
fetch, `fx` is `api_request_fx`.  If there is no open row the function
returns early.  On the batched path, an exception inside the `try` block
(a failing FX conversion) falls into the fallback with the price updates
already applied. -/
def api_current_price (batch : Option (String → Option ℚ)) (pt : String → Option ℚ)
    (fx : String → ℕ → Option ℚ) (today : ℕ) (df : List VRow) : Option (List VRow) :=
  let tagged := df.map (fun r => (r, isOpenRow r))
  if (df.filter isOpenRow).isEmpty then some df
  else
    match batch with
    | none => apiFallback pt fx today tagged
    | some m =>
      let t1 := batchPriceStep m today tagged
      match batchConvertStep fx today m t1 with
      | none => apiFallback pt fx today t1
      | some t2 => some ((batchSentinelStep m t2).map (·.1))

/-- Whether the string rendering of a `date_sell` cell contains the
substring `"2024"` (`df['date_sell'].astype(str).str.contains('2024')`;
the pattern has no regex metacharacters, so it is a plain substring
test). -/
def contains2024 (s : String) : Bool := decide ("2024".toList <:+: s.toList)

/-- `app.load_cached_data()` after the database read: drop every row whose
`date_sell`, rendered as a string by `astype(str)` (the rendering is the
oracle `render`), contains `"2024"`. -/
def load_cached_data (render : DateVal → String) (df : List Row) : List Row :=
  df.filter (fun r => !contains2024 (render r.date_sell))

/-- The columns of the frame handed to `app.create_daily_cumulative`
(`owner`, `date_sell`, `earning`).  At both call sites the `date_sell`
column holds only real dates or `NaN`: with open positions included the
caller has just replaced the `"OPEN"` sentinel by today's date, and
without them the chart data is the pre-resolution frame. -/
structure ARow where
  owner : String
  date_sell : Option ℕ
  earning : Option ℚ
deriving DecidableEq

/-- One row of the frame returned by `app.create_daily_cumulative`:
the group key, the summed daily earning, and the running cumulative. -/
structure DPoint where
  owner : String
  date : ℕ
  earning : ℚ
  cumulative : ℚ
deriving DecidableEq

/-- Lexicographic order on the `(owner, date_sell)` group keys, the order
used by `sort_values(["owner", "date_sell"])`.  Strings are compared as
their character lists (the code-point lexicographic order Python uses to
compare strings). -/
def keyLe (a b : String × ℕ) : Prop :=
  a.1.data < b.1.data ∨ (a.1 = b.1 ∧ a.2 ≤ b.2)

instance : DecidableRel keyLe := fun a b =>
  inferInstanceAs (Decidable (a.1.data < b.1.data ∨ (a.1 = b.1 ∧ a.2 ≤ b.2)))

/-- The rows `groupby(["owner", "date_sell"])` actually groups: rows with
a `NaN` key are dropped, and a `NaN` earning counts as 0 in the group sum
(pandas `sum` skips `NaN`). -/
def validRows (df : List ARow) : List (String × ℕ × ℚ) :=
  df.filterMap (fun r => r.date_sell.map (fun d => (r.owner, d, r.earning.getD 0)))

/-- The distinct `(owner, date_sell)` group keys. -/
def groupKeys (df : List ARow) : List (String × ℕ) :=
  ((validRows df).map (fun v => (v.1, v.2.1))).dedup

/-- The group keys in the order produced by
`groupby(...).sum().reset_index()` followed by
`sort_values(["owner", "date_sell"])`: lexicographically sorted. -/
def sortedKeys (df : List ARow) : List (String × ℕ) :=
  List.insertionSort keyLe (groupKeys df)

/-- The summed earning of one `(owner, date_sell)` group. -/
def dailySum (df : List ARow) (k : String × ℕ) : ℚ :=
  (((validRows df).filter (fun v => decide (v.1 = k.1 ∧ v.2.1 = k.2))).map
    (fun v => v.2.2)).sum

/-- The `daily` frame after groupby-sum and sort, before the cumulative
column is added. -/
def daily_df (df : List ARow) : List (String × ℕ × ℚ) :=
  (sortedKeys df).map (fun k => (k.1, k.2, dailySum df k))

/-- `daily.groupby("owner")["earning"].cumsum()`: one pass in row order,
keeping a per-owner running total. -/
def addCum (acc : String → ℚ) : List (String × ℕ × ℚ) → List DPoint
  | [] => []
  | v :: rest =>
    { owner := v.1, date := v.2.1, earning := v.2.2, cumulative := acc v.1 + v.2.2 } ::
      addCum (fun w => if w = v.1 then acc v.1 + v.2.2 else acc w) rest

/-- `app.create_daily_cumulative(df)`: group by `(owner, date_sell)`, sum
`earning`, sort by `(owner, date_sell)`, add the per-owner cumulative. -/
def create_daily_cumulative (df : List ARow) : List DPoint :=
  addCum (fun _ => 0) (daily_df df)

/-- The index of `daily.pivot(index="date_sell", ...)`: the distinct dates
of the daily frame, sorted ascending. -/
def allDates (pts : List DPoint) : List ℕ :=
  List.insertionSort (fun a b : ℕ => a ≤ b) (pts.map DPoint.date).dedup

/-- One cell of the pivoted matrix before `ffill`: the cumulative of the
unique daily row with this `(owner, date)` key, if any. -/
def pivotCell (pts : List DPoint) (w : String) (d : ℕ) : Option ℚ :=
  (pts.find? (fun p => decide (p.owner = w ∧ p.date = d))).map DPoint.cumulative

/-- `DataFrame.ffill()` down one column: each `NaN` cell takes the value
of the nearest earlier non-`NaN` cell, if there is one. -/
def ffillCol (prev : Option ℚ) : List (Option ℚ) → List (Option ℚ)
  | [] => []
  | none :: rest => prev :: ffillCol prev rest
  | some v :: rest => some v :: ffillCol (some v) rest

/-- One owner's column of
`daily.pivot(index="date_sell", columns="owner", values="cumulative").ffill()`,
listed along the sorted date index. -/
def chartCol (pts : List DPoint) (w : String) : List (Option ℚ) :=
  ffillCol none ((allDates pts).map (pivotCell pts w))

/-- The last non-`NaN` value of a cell list (with a fallback for the
all-`NaN` case): the value `ffill` carries into the next cell. -/
def lastSome (init : Option ℚ) (l : List (Option ℚ)) : Option ℚ :=
  l.foldl (fun a x => match x with | some v => some v | none => a) init

/-- The cumulative recurrence along one owner's point sequence, started
from running total `a`: the first point's cumulative is `a` plus its daily
earning, and each later point's cumulative is the previous point's
cumulative plus its own daily earning. -/
def cumChain (a : ℚ) : List DPoint → Prop
  | [] => True
  | p :: rest => p.cumulative = a + p.earning ∧ cumChain p.cumulative rest

/-- Reference scan for one owner's block: the same rows with the running
total threaded through explicitly. -/
def scanSum (a : ℚ) : List (String × ℕ × ℚ) → List DPoint
  | [] => []
  | v :: rest =>
    { owner := v.1, date := v.2.1, earning := v.2.2, cumulative := a + v.2.2 } ::
      scanSum (a + v.2.2) rest

/-- The ranking label of one selected row
(`top_3['owner'] + ' - ' + top_3['stock']`). -/
def mkLabel (owner stock : String) : String := owner ++ " - " ++ stock

/-- The loop body of `operations.create_unique_labels`, carrying the
`label_counts` dictionary (a total function, 0 = absent): a first
occurrence passes through and is recorded with count 1; a repeat
occurrence increments the count to `c+1` and is displayed with the
suffix `(c+1)`. -/
def uniqueLabelsGo (counts : String → ℕ) : List String → List String
  | [] => []
  | l :: rest =>
    if counts l = 0 then
      l :: uniqueLabelsGo (fun x => if x = l then 1 else counts x) rest
    else
      (l ++ "(" ++ Nat.repr (counts l + 1) ++ ")") ::
        uniqueLabelsGo (fun x => if x = l then counts l + 1 else counts x) rest

/-- `operations.create_unique_labels(stocks_df)` on the label column. -/
def create_unique_labels (labels : List String) : List String :=
  uniqueLabelsGo (fun _ => 0) labels

/-- The big-endian decimal digit list of a natural number (one digit for
numbers below 10, otherwise the digits of `n / 10` followed by `n % 10`);
reference definition used to reason about `Nat.repr`. -/
def digitsBE (n : ℕ) : List ℕ :=
  if _h : n < 10 then [n]
  else digitsBE (n / 10) ++ [n % 10]
decreasing_by exact Nat.div_lt_self (by omega) (by omega)

/-- The number a big-endian digit list denotes. -/
def digitsVal (l : List ℕ) : ℕ := l.foldl (fun a d => 10 * a + d) 0

/-- The engine's valuation pipeline on one snapshot:
`calculate_metrics` then `api_current_price` (the owner post-filter
between them does not change the valuation math). -/
def valuePortfolio (include_dividends : Bool) (fx : String → ℕ → Option ℚ)
    (batch : Option (String → Option ℚ)) (pt : String → Option ℚ)
    (today : ℕ) (df : List Row) : Option (List VRow) :=
  match calculate_metrics include_dividends fx today df with
  | none => none
  | some m => api_current_price batch pt fx today m

/-- One engine run against the cached snapshot, returning the result and
the snapshot as the caller sees it afterwards: `calculate_metrics` copies
its input (`df = df.copy()`, app.py line 28) and `api_current_price` is
called on a fresh copy (`df_filtered.copy()`, app.py line 22), so the
caller's snapshot object is left as it was. -/
def runValuation (include_dividends : Bool) (fx : String → ℕ → Option ℚ)
    (batch : Option (String → Option ℚ)) (pt : String → Option ℚ)
    (today : ℕ) (snapshot : List Row) : Option (List VRow) × List Row :=
  (valuePortfolio include_dividends fx batch pt today snapshot, snapshot)

/-- An FX oracle whose USD rate is 11/10 on day 2 and 2 on any other day
(PLN rate 4 throughout). -/
def fxC1 : String → ℕ → Option ℚ := fun c d =>
  if c = "USD" ∧ d = 2 then some (11/10)
  else if c = "USD" then some 2
  else some 4

/-- A USD transaction closed on day 2 with raw earning 80 − 50 = 30. -/
def rowC1 : Row :=
  { owner := "Alice", stock := "X", ticker := "X", currency := "USD"
    price_buy := 5, quantity_buy := 10, date_buy := 1
    price_sell := some 8, quantity_sell := some 10, date_sell := DateVal.date 2
    dividends := 0 }

/-- An FX oracle with USD rate 11/10 and PLN rate 4 on every date. -/
def fxW : String → ℕ → Option ℚ := fun c _ =>
  if c = "USD" then some (11/10) else some 4

/-- Scenario A: an EUR transaction, buy 10 at 5 on day 1, sell 10 at 8 on
day 2, no dividends. -/
def rowA : Row :=
  { owner := "Alice", stock := "S", ticker := "S", currency := "EUR"
    price_buy := 5, quantity_buy := 10, date_buy := 1
    price_sell := some 8, quantity_sell := some 10, date_sell := DateVal.date 2
    dividends := 0 }

/-- A valued open position: ticker XYZ, quantity_buy 5, total_buy 100,
EUR, no sell leg (Scenario C's open transaction, post-metrics). -/
def vOpenXYZ : VRow :=
  { owner := "A", stock := "S", ticker := "XYZ", currency := "EUR"
    price_buy := 20, quantity_buy := 5, date_buy := 1
    price_sell := none, quantity_sell := none, date_sell := DateVal.null
    dividends := 0, total_buy := 100, total_sell := none, earning := none }

/-- A valued EUR transaction genuinely closed on day 7 (the day the
engine runs), earning 30. -/
def vClosedToday : VRow :=
  { owner := "B", stock := "T", ticker := "TTT", currency := "EUR"
    price_buy := 5, quantity_buy := 10, date_buy := 1
    price_sell := some 8, quantity_sell := some 10, date_sell := DateVal.date 7
    dividends := 0, total_buy := 50, total_sell := some 80, earning := some 30 }

def dfE : List ARow :=
  [{ owner := "Alice", date_sell := some 1, earning := some 10 },
   { owner := "Alice", date_sell := some 3, earning := some (-5) },
   { owner := "Bob", date_sell := some 2, earning := some 7 }]

unseal Rat.add Rat.sub Rat.mul Rat.inv in
example :
    create_daily_cumulative dfE =
      [{ owner := "Alice", date := 1, earning := 10, cumulative := 10 },
       { owner := "Alice", date := 3, earning := -5, cumulative := 5 },
       { owner := "Bob", date := 2, earning := 7, cumulative := 7 }] := by decide

unseal Rat.add Rat.sub Rat.mul Rat.inv in
example :
    chartCol (create_daily_cumulative dfE) "Alice" =
      [some 10, some 10, some 5] := by decide

example :
    create_unique_labels [mkLabel "A" "B", mkLabel "A" "B(2)", mkLabel "A" "B"] =
      ["A - B", "A - B(2)", "A - B(2)"] := by decide

/-! ## Theorems -/

/-- C9: for every amount denominated in EUR, normalization is the identity
up to 2-decimal rounding and performs no FX lookup — `convert_to_eur`
returns `round2` of the amount for *every* FX oracle (including the
always-failing one), `convert_open_to_eur` ignores both pre-fetched
rates, and consequently every closed EUR transaction gets
`earning = round2 (total_sell − total_buy)` whatever the rates are. -/
theorem C9_eur_identity :
    (∀ (fx : String → ℕ → Option ℚ) (today : ℕ) (dv : DateVal) (a : Option ℚ),
      convert_to_eur fx today "EUR" dv a = some (a.map round2)) ∧
    (∀ (dv : DateVal) (a : Option ℚ) (u p : ℚ),
      convert_open_to_eur "EUR" dv a u p = a.map round2) ∧
    (∀ (inc : Bool) (u p : ℚ) (r : Row) (ps qs : ℚ),
      r.currency = "EUR" → r.price_sell = some ps → r.quantity_sell = some qs →
      (metricsRow inc u p r).earning =
        some (round2 (ps * qs + (if inc then r.dividends else 0) -
          r.price_buy * r.quantity_buy))) := by
  refine ⟨?_, ?_, ?_⟩
  · intro fx today dv a
    simp [convert_to_eur]
  · intro dv a u p
    simp [convert_open_to_eur]
  · intro inc u p r ps qs hcur hps hqs
    simp [metricsRow, convert_open_to_eur, hcur, hps, hqs]

unseal Rat.add Rat.sub Rat.mul Rat.inv in
/-- Witness for C9 at Scenario A: total_buy = 50, total_sell = 80,
earning = 30, and `convert_to_eur` on an EUR amount succeeds even when
the FX oracle always fails. -/
theorem C9_witness :
    (metricsRow true 1 1 rowA).earning = some 30 ∧
    convert_to_eur (fun _ _ => none) 9 "EUR" (DateVal.date 2) (some 30) =
      some (some 30) := by
  constructor
  · have h := C9_eur_identity.2.2 true 1 1 rowA 8 10 rfl rfl rfl
    rw [h]; decide
  · have h := C9_eur_identity.1 (fun _ _ => none) 9 (DateVal.date 2) (some 30)
    rw [h]; decide

/-- C3: when the FX provider cannot supply a rate for the (currency, date)
pair it is asked for (any non-EUR currency with a non-null date cell),
`convert_to_eur` fails distinguishably (the division by `None` raises,
modelled as `none`): the caller never receives an earning of zero and
never receives the raw unconverted amount. -/
theorem C3_fx_failure_propagates (fx : String → ℕ → Option ℚ) (today : ℕ)
    (currency : String) (d : ℕ) (a : ℚ)
    (hcur : currency ≠ "EUR") (hfx : fx currency today = none) :
    convert_to_eur fx today currency (DateVal.date d) (some a) = none ∧
    convert_to_eur fx today currency (DateVal.date d) (some a) ≠ some (some 0) ∧
    convert_to_eur fx today currency (DateVal.date d) (some a) ≠ some (some a) := by
  have h : convert_to_eur fx today currency (DateVal.date d) (some a) = none := by
    simp [convert_to_eur, hcur, hfx]
  exact ⟨h, by simp [h], by simp [h]⟩

/-- Witness for C3: a USD amount of 30 on day 2 under an always-failing
FX oracle. -/
theorem C3_witness :
    convert_to_eur (fun _ _ => none) 5 "USD" (DateVal.date 2) (some 30) = none ∧
    convert_to_eur (fun _ _ => none) 5 "USD" (DateVal.date 2) (some 30) ≠
      some (some 0) ∧
    convert_to_eur (fun _ _ => none) 5 "USD" (DateVal.date 2) (some 30) ≠
      some (some 30) :=
  C3_fx_failure_propagates (fun _ _ => none) 5 "USD" 2 30 (by decide) rfl

/-- C5: the loaded transaction set is filtered before any valuation —
the result is a sublist of the input (order preserved, nothing added),
and a row survives exactly when the string rendering of its `date_sell`
does not contain the substring `"2024"`. -/
theorem C5_year2024_filter (render : DateVal → String) (df : List Row) :
    List.Sublist (load_cached_data render df) df ∧
    ∀ r : Row, r ∈ load_cached_data render df ↔
      (r ∈ df ∧ contains2024 (render r.date_sell) = false) := by
  constructor
  · exact List.filter_sublist df
  · intro r
    simp [load_cached_data, List.mem_filter]

/-- C8: one engine run leaves the cached snapshot unchanged (the engine
copies before mutating: app.py lines 22 and 28), so a second run on the
snapshot it left behind produces the same valued transactions, the
external fetches (`fx`, `batch`, `pt`) and configuration being equal. -/
theorem C8_valuation_deterministic (include_dividends : Bool)
    (fx : String → ℕ → Option ℚ) (batch : Option (String → Option ℚ))
    (pt : String → Option ℚ) (today : ℕ) (snapshot : List Row) :
    (runValuation include_dividends fx batch pt today snapshot).2 = snapshot ∧
    (runValuation include_dividends fx batch pt today
        (runValuation include_dividends fx batch pt today snapshot).2).1 =
      (runValuation include_dividends fx batch pt today snapshot).1 :=
  ⟨rfl, rfl⟩

unseal Rat.add Rat.sub Rat.mul Rat.inv in
/-- C1 counterexample: `rowC1` is a closed USD transaction
(`date_sell` = day 2, raw earning 30); the FX rate on day 2 is 11/10, so
the claim predicts `round(30 / (11/10), 2) = 27.27` — but running
`calculate_metrics` with today = day 5 (today's USD rate 2) produces
earning 15, because the code converts with today's rate, not the
`date_sell` rate. -/
theorem C1_counterexample :
    fxC1 "USD" 2 = some (11/10) ∧ rowC1.date_sell = DateVal.date 2 ∧
    round2 (30 / (11/10)) = 2727/100 ∧
    (calculate_metrics true fxC1 5 [rowC1]).map (fun l => l.map VRow.earning) =
      some [some 15] ∧
    (15 : ℚ) ≠ 2727/100 := by
  decide

/-- C1 (amended): for every closed transaction, the earning
`total_sell − total_buy` is converted with *today's* rate, rounded to two
decimals before use, regardless of `date_sell`: USD rows are divided by
`round2 (rate USD today)`, PLN rows by `round2 (rate PLN today)`, and rows
in any other currency are left unconverted (only rounded). -/
theorem C1_earning_converted_at_today_rate (fx : String → ℕ → Option ℚ)
    (today : ℕ) (inc : Bool) (df : List Row) (i : ℕ) (r : Row)
    (u pl ps qs : ℚ) (d : ℕ)
    (hu : fx "USD" today = some u) (hpl : fx "PLN" today = some pl)
    (hr : df[i]? = some r) (hps : r.price_sell = some ps)
    (hqs : r.quantity_sell = some qs) (hd : r.date_sell = DateVal.date d) :
    ∃ out, calculate_metrics inc fx today df = some out ∧
      ∃ v, out[i]? = some v ∧
        (r.currency = "USD" →
          v.earning = some (round2 ((ps * qs + (if inc then r.dividends else 0) -
            r.price_buy * r.quantity_buy) / round2 u))) ∧
        (r.currency = "PLN" →
          v.earning = some (round2 ((ps * qs + (if inc then r.dividends else 0) -
            r.price_buy * r.quantity_buy) / round2 pl))) ∧
        (r.currency ≠ "USD" → r.currency ≠ "PLN" →
          v.earning = some (round2 (ps * qs + (if inc then r.dividends else 0) -
            r.price_buy * r.quantity_buy))) := by
  refine ⟨df.map (metricsRow inc (round2 u) (round2 pl)), ?_, ?_⟩
  · simp [calculate_metrics, today_rate, hu, hpl]
  · refine ⟨metricsRow inc (round2 u) (round2 pl) r, ?_, ?_, ?_, ?_⟩
    · simp [List.getElem?_map, hr]
    · intro hcur
      simp [metricsRow, convert_open_to_eur, hcur, hps, hqs, hd]
    · intro hcur
      simp [metricsRow, convert_open_to_eur, hcur, hps, hqs, hd]
    · intro hcu hcp
      simp [metricsRow, convert_open_to_eur, hcu, hcp, hps, hqs, hd]

unseal Rat.add Rat.sub Rat.mul Rat.inv in
/-- Witness for C1 (amended): `rowC1` valued on day 9 under `fxW`
(today's USD rate 11/10) yields earning `round2 (30 / (11/10)) = 27.27`. -/
theorem C1_witness :
    fxW "USD" 9 = some (11/10) ∧ rowC1.currency = "USD" ∧
    ∃ out, calculate_metrics true fxW 9 [rowC1] = some out ∧
      ∃ v, out[0]? = some v ∧ v.earning = some (2727/100) := by
  refine ⟨rfl, rfl, ?_⟩
  obtain ⟨out, hout, v, hv, husd, _, _⟩ :=
    C1_earning_converted_at_today_rate fxW 9 true [rowC1] 0 rowC1 (11/10) 4 8 10 2
      rfl rfl rfl rfl rfl rfl
  refine ⟨out, hout, v, hv, ?_⟩
  rw [husd rfl]
  decide

/-! ### Helper lemmas for api_current_price -/

theorem mapOption_getElem {α β : Type} (f : α → Option β) (l : List α) :
    ∀ (l2 : List β), mapOption f l = some l2 → ∀ i : ℕ, l2[i]? = (l[i]?).bind f := by
  induction l with
  | nil =>
    intro l2 h i
    simp only [mapOption, Option.some.injEq] at h
    subst h; simp
  | cons a t ih =>
    intro l2 h i
    simp only [mapOption] at h
    cases hfa : f a with
    | none => rw [hfa] at h; simp at h
    | some b =>
      rw [hfa] at h
      cases hmt : mapOption f t with
      | none => rw [hmt] at h; simp at h
      | some t2 =>
        rw [hmt] at h
        simp only [Option.some.injEq] at h
        subst h
        cases i with
        | zero => simp [hfa]
        | succ j => simpa using ih t2 hmt j

theorem mapOption_isSome {α β : Type} (f : α → Option β) (l : List α)
    (h : ∀ x ∈ l, (f x).isSome) : ∃ l2, mapOption f l = some l2 := by
  induction l with
  | nil => exact ⟨[], rfl⟩
  | cons a t ih =>
    obtain ⟨b, hb⟩ := Option.isSome_iff_exists.mp (h a (by simp))
    obtain ⟨t2, ht⟩ := ih (fun x hx => h x (by simp [hx]))
    exact ⟨b :: t2, by simp [mapOption, hb, ht]⟩

theorem convert_to_eur_isSome (fx : String → ℕ → Option ℚ) (today : ℕ)
    (c : String) (dv : DateVal) (a : Option ℚ)
    (hfx : ∀ cu, (fx cu today).isSome) : (convert_to_eur fx today c dv a).isSome := by
  unfold convert_to_eur
  split
  · obtain ⟨r, hr⟩ := Option.isSome_iff_exists.mp (hfx c)
    simp [hr]
  · simp

theorem batchConvertStep_isSome (fx : String → ℕ → Option ℚ) (today : ℕ)
    (m : String → Option ℚ) (t : List (VRow × Bool))
    (hfx : ∀ cu, (fx cu today).isSome) :
    ∃ t2, batchConvertStep fx today m t = some t2 := by
  apply mapOption_isSome
  intro x _
  unfold convert_to_eur
  split
  · split
    · obtain ⟨r, hr⟩ := Option.isSome_iff_exists.mp (hfx x.1.currency)
      simp [hr]
    · simp
  · simp

unseal Rat.add Rat.sub Rat.mul Rat.inv in
/-- C2 (code bug): on the fallback path of `api_current_price` the
conversion/relabel mask is `df["date_sell"] == today`, which also matches
rows genuinely closed on the day of the run.  Concretely: one open XYZ
row and one row closed on day 7 (= today); the bulk fetch raises, the
per-ticker fetch prices XYZ at 25.  The closed row comes out with
`date_sell = "OPEN"`, so a row with non-null `date_sell` did not pass
through unchanged, contradicting the claim for the fallback path (the
batched path uses `isin(...) & open_mask` and is not affected). -/
theorem C2_fallback_relabels_closed_today :
    vClosedToday.date_sell = DateVal.date 7 ∧
    api_current_price none (fun t => if t = "XYZ" then some 25 else none)
        (fun _ _ => none) 7 [vOpenXYZ, vClosedToday] =
      some [{ vOpenXYZ with
                total_sell := some 125
                earning := some 25
                date_sell := DateVal.sentinel },
            { vClosedToday with date_sell := DateVal.sentinel }] ∧
    ({ vClosedToday with date_sell := DateVal.sentinel } : VRow) ≠ vClosedToday := by
  decide

/-- C4: in the batched path, every row open at entry whose ticker got a
live price `p` ends with `total_sell = p * quantity_buy`,
`earning = round2 (total_sell − total_buy)` normalized to EUR by
`convert_to_eur` with the *real date* "today" as FX reference (the
sentinel is not yet in place during conversion), and only then
`date_sell` overwritten with the `"OPEN"` sentinel. -/
theorem C4_open_position_resolution (m : String → Option ℚ)
    (pt : String → Option ℚ) (fx : String → ℕ → Option ℚ) (today : ℕ)
    (df : List VRow) (i : ℕ) (r : VRow) (p : ℚ)
    (hr : df[i]? = some r) (hopen : r.date_sell = DateVal.null)
    (hp : m r.ticker = some p)
    (hfx : ∀ c, (fx c today).isSome) :
    ∃ out, api_current_price (some m) pt fx today df = some out ∧
      ∃ v, out[i]? = some v ∧
        v.total_sell = some (p * r.quantity_buy) ∧
        v.date_sell = DateVal.sentinel ∧
        some v.earning =
          convert_to_eur fx today r.currency (DateVal.date today)
            (some (round2 (p * r.quantity_buy - r.total_buy))) := by
  have hmem : r ∈ df := by
    have := List.getElem?_eq_some_iff.mp hr
    obtain ⟨hlen, hget⟩ := this
    exact hget ▸ List.getElem_mem hlen
  have hopenb : isOpenRow r = true := by simp [isOpenRow, hopen]
  have hne : (df.filter isOpenRow).isEmpty = false := by
    have : r ∈ df.filter isOpenRow := List.mem_filter.mpr ⟨hmem, hopenb⟩
    rcases hx : df.filter isOpenRow with _ | ⟨a, l⟩
    · rw [hx] at this; simp at this
    · simp [List.isEmpty]
  obtain ⟨t2, ht2⟩ := batchConvertStep_isSome fx today m
    (batchPriceStep m today (df.map (fun r => (r, isOpenRow r)))) hfx
  refine ⟨(batchSentinelStep m t2).map (·.1), ?_, ?_⟩
  · simp only [api_current_price, hne, Bool.false_eq_true, if_false, ht2]
  · -- walk the pipeline at index i
    have htag : (df.map (fun r => (r, isOpenRow r)))[i]? = some (r, true) := by
      rw [List.getElem?_map, hr]
      simp [hopenb]
    have ht1 : (batchPriceStep m today (df.map (fun r => (r, isOpenRow r))))[i]? =
        some (priceUpdate today p r, true) := by
      unfold batchPriceStep
      rw [List.getElem?_map, htag]
      simp [hp]
    have hticker : (priceUpdate today p r).ticker = r.ticker := rfl
    have hconv := convert_to_eur_isSome fx today r.currency (DateVal.date today)
      (some (round2 (p * r.quantity_buy - r.total_buy))) hfx
    obtain ⟨e, he⟩ := Option.isSome_iff_exists.mp hconv
    have hmsome : (m (priceUpdate today p r).ticker).isSome = true := by
      rw [hticker, hp]; rfl
    have ht2i : t2[i]? = some ({ priceUpdate today p r with earning := e }, true) := by
      have hstep := mapOption_getElem _ _ t2 ht2 i
      rw [ht1] at hstep
      rw [hstep]
      show (if ((priceUpdate today p r, true) : VRow × Bool).2 = true ∧
            (m (priceUpdate today p r, true).1.ticker).isSome = true then
          Option.map (fun e => ({ priceUpdate today p r with earning := e }, true))
            (convert_to_eur fx today (priceUpdate today p r).currency
              (priceUpdate today p r).date_sell (priceUpdate today p r).earning)
        else some (priceUpdate today p r, true)) =
        some ({ priceUpdate today p r with earning := e }, true)
      rw [if_pos ⟨rfl, hmsome⟩]
      have h1 : (priceUpdate today p r).currency = r.currency := rfl
      have h2 : (priceUpdate today p r).date_sell = DateVal.date today := rfl
      have h3 : (priceUpdate today p r).earning =
          some (round2 (p * r.quantity_buy - r.total_buy)) := rfl
      rw [h1, h2, h3, he]
      rfl
    refine ⟨{ priceUpdate today p r with earning := e, date_sell := DateVal.sentinel },
      ?_, rfl, rfl, ?_⟩
    · rw [List.getElem?_map]
      unfold batchSentinelStep
      rw [List.getElem?_map, ht2i]
      have hms2 : (m ({ priceUpdate today p r with earning := e } : VRow).ticker).isSome =
          true := hmsome
      show Option.map (fun x : VRow × Bool => x.1)
          (Option.map (fun x : VRow × Bool =>
            if x.2 = true ∧ (m x.1.ticker).isSome = true then
              ({ x.1 with date_sell := DateVal.sentinel }, x.2)
            else x)
            (some ({ priceUpdate today p r with earning := e }, true))) =
        some { priceUpdate today p r with earning := e, date_sell := DateVal.sentinel }
      rw [Option.map_map]
      simp [hms2]
    · rw [he]

unseal Rat.add Rat.sub Rat.mul Rat.inv in
/-- Witness for C4 at Scenario C: the open XYZ row with quantity_buy 5
and total_buy 100, live price 25, gives total_sell 125, earning 25 and
the `"OPEN"` sentinel. -/
theorem C4_witness :
    ∃ out, api_current_price (some (fun t => if t = "XYZ" then some 25 else none))
        (fun _ => none) (fun _ _ => some 1) 9 [vOpenXYZ] = some out ∧
      ∃ v, out[0]? = some v ∧ v.total_sell = some 125 ∧
        v.date_sell = DateVal.sentinel ∧ v.earning = some 25 := by
  obtain ⟨out, hout, v, hv, hts, hds, he⟩ :=
    C4_open_position_resolution (fun t => if t = "XYZ" then some 25 else none)
      (fun _ => none) (fun _ _ => some 1) 9 [vOpenXYZ] 0 vOpenXYZ 25
      rfl rfl rfl (fun _ => rfl)
  refine ⟨out, hout, v, hv, ?_, hds, ?_⟩
  · rw [hts]; decide
  · have hc : convert_to_eur (fun _ _ => some 1) 9 vOpenXYZ.currency (DateVal.date 9)
        (some (round2 (25 * vOpenXYZ.quantity_buy - vOpenXYZ.total_buy))) =
        some (some 25) := by decide
    exact Option.some_injective _ (he.trans hc)

/-! ### Helper lemmas for the aggregator -/

instance : IsTrans (String × ℕ) keyLe where
  trans a b c hab hbc := by
    simp only [keyLe] at hab hbc ⊢
    rcases hab with h1 | ⟨h1, h1n⟩ <;> rcases hbc with h2 | ⟨h2, h2n⟩
    · exact Or.inl (lt_trans h1 h2)
    · exact Or.inl (by rw [← h2]; exact h1)
    · exact Or.inl (by rw [h1]; exact h2)
    · exact Or.inr ⟨h1.trans h2, le_trans h1n h2n⟩

instance : IsTotal (String × ℕ) keyLe where
  total a b := by
    simp only [keyLe]
    rcases lt_trichotomy a.1.data b.1.data with h | h | h
    · exact Or.inl (Or.inl h)
    · have hs : a.1 = b.1 := String.ext h
      rcases Nat.le_total a.2 b.2 with hn | hn
      · exact Or.inl (Or.inr ⟨hs, hn⟩)
      · exact Or.inr (Or.inr ⟨hs.symm, hn⟩)
    · exact Or.inr (Or.inl h)

instance : IsAntisymm (String × ℕ) keyLe where
  antisymm a b hab hba := by
    simp only [keyLe] at hab hba
    rcases hab with h1 | ⟨h1, h1n⟩
    · rcases hba with h2 | ⟨h2, h2n⟩
      · exact absurd (lt_trans h1 h2) (lt_irrefl _)
      · exact absurd h1 (by rw [h2]; exact lt_irrefl _)
    · rcases hba with h2 | ⟨h2, h2n⟩
      · exact absurd h2 (by rw [h1]; exact lt_irrefl _)
      · exact Prod.ext h1 (le_antisymm h1n h2n)

theorem addCum_filter (w : String) :
    ∀ (l : List (String × ℕ × ℚ)) (acc : String → ℚ),
      (addCum acc l).filter (fun p => decide (p.owner = w)) =
        scanSum (acc w) (l.filter (fun v => decide (v.1 = w))) := by
  intro l
  induction l with
  | nil => intro acc; simp [addCum, scanSum]
  | cons v rest ih =>
    intro acc
    by_cases hvw : v.1 = w
    · simp [addCum, scanSum, List.filter_cons, hvw, ih]
    · have hwv : ¬(w = v.1) := fun h => hvw h.symm
      simp [addCum, List.filter_cons, hvw, hwv, ih]

theorem addCum_all_owner (w : String) :
    ∀ (l : List (String × ℕ × ℚ)) (acc : String → ℚ),
      (∀ v ∈ l, v.1 = w) → addCum acc l = scanSum (acc w) l := by
  intro l
  induction l with
  | nil => intro acc _; rfl
  | cons v rest ih =>
    intro acc h
    have hv : v.1 = w := h v (by simp)
    simp only [addCum, scanSum, hv]
    rw [ih _ (fun x hx => h x (List.mem_cons_of_mem _ hx))]
    simp [hv]

theorem cumChain_scanSum :
    ∀ (l : List (String × ℕ × ℚ)) (a : ℚ), cumChain a (scanSum a l) := by
  intro l
  induction l with
  | nil => intro a; trivial
  | cons v rest ih => intro a; exact ⟨rfl, ih (a + v.2.2)⟩

theorem scanSum_map_date :
    ∀ (l : List (String × ℕ × ℚ)) (a : ℚ),
      (scanSum a l).map DPoint.date = l.map (fun v => v.2.1) := by
  intro l
  induction l with
  | nil => intro a; rfl
  | cons v rest ih => intro a; simp [scanSum, ih]

theorem scanSum_map_earning :
    ∀ (l : List (String × ℕ × ℚ)) (a : ℚ),
      (scanSum a l).map DPoint.earning = l.map (fun v => v.2.2) := by
  intro l
  induction l with
  | nil => intro a; rfl
  | cons v rest ih => intro a; simp [scanSum, ih]

theorem scanSum_getLast :
    ∀ (l : List (String × ℕ × ℚ)) (a : ℚ) (q : DPoint),
      (scanSum a l).getLast? = some q →
        q.cumulative = a + (l.map (fun v => v.2.2)).sum := by
  intro l
  induction l with
  | nil => intro a q h; simp [scanSum] at h
  | cons v rest ih =>
    intro a q h
    cases rest with
    | nil =>
      simp [scanSum] at h
      subst h
      simp
    | cons u rest2 =>
      have h' : (scanSum (a + v.2.2) (u :: rest2)).getLast? = some q := h
      have := ih (a + v.2.2) q h'
      rw [this]
      simp only [List.map_cons, List.sum_cons]
      ring

theorem sortedKeys_sorted (df : List ARow) : (sortedKeys df).Sorted keyLe :=
  List.sorted_insertionSort keyLe _

theorem sortedKeys_nodup (df : List ARow) : (sortedKeys df).Nodup :=
  ((List.perm_insertionSort keyLe _).nodup_iff).mpr (List.nodup_dedup _)

theorem mem_sortedKeys (df : List ARow) (k : String × ℕ) :
    k ∈ sortedKeys df ↔ k ∈ (validRows df).map (fun v => (v.1, v.2.1)) := by
  unfold sortedKeys
  rw [List.Perm.mem_iff (List.perm_insertionSort keyLe _)]
  exact List.mem_dedup

theorem validRows_filter_owner (df : List ARow) (w : String) :
    validRows (df.filter (fun r => decide (r.owner = w))) =
      (validRows df).filter (fun v => decide (v.1 = w)) := by
  induction df with
  | nil => rfl
  | cons r rest ih =>
    by_cases hw : r.owner = w
    · cases hd : r.date_sell with
      | none =>
        simp [validRows, List.filter_cons, List.filterMap_cons, hw, hd]
        exact ih
      | some d =>
        simp [validRows, List.filter_cons, List.filterMap_cons, hw, hd]
        exact ih
    · cases hd : r.date_sell with
      | none =>
        simp [validRows, List.filter_cons, List.filterMap_cons, hw, hd]
        exact ih
      | some d =>
        simp [validRows, List.filter_cons, List.filterMap_cons, hw, hd]
        exact ih

theorem mem_keys_iff (df : List ARow) (w : String) (k : String × ℕ) :
    k ∈ (validRows (df.filter (fun r => decide (r.owner = w)))).map
        (fun v => (v.1, v.2.1)) ↔
      (k ∈ (validRows df).map (fun v => (v.1, v.2.1)) ∧ k.1 = w) := by
  rw [validRows_filter_owner]
  simp only [List.mem_map, List.mem_filter, decide_eq_true_eq]
  constructor
  · rintro ⟨v, ⟨hv, hw⟩, hk⟩
    exact ⟨⟨v, hv, hk⟩, by rw [← hk]; exact hw⟩
  · rintro ⟨⟨v, hv, hk⟩, hw⟩
    exact ⟨v, ⟨hv, by rw [← hk] at hw; exact hw⟩, hk⟩

theorem sortedKeys_filter_owner (df : List ARow) (w : String) :
    (sortedKeys df).filter (fun k => decide (k.1 = w)) =
      sortedKeys (df.filter (fun r => decide (r.owner = w))) := by
  refine List.eq_of_perm_of_sorted ?_ ((sortedKeys_sorted df).filter _)
    (sortedKeys_sorted _)
  rw [List.perm_ext_iff_of_nodup ((sortedKeys_nodup df).filter _)
    (sortedKeys_nodup _)]
  intro k
  rw [List.mem_filter, mem_sortedKeys, mem_sortedKeys, mem_keys_iff]
  simp

theorem dailySum_filter_owner (df : List ARow) (w : String) (k : String × ℕ)
    (hk : k.1 = w) :
    dailySum (df.filter (fun r => decide (r.owner = w))) k = dailySum df k := by
  unfold dailySum
  rw [validRows_filter_owner, List.filter_filter]
  congr 1
  congr 1
  apply List.filter_congr
  intro v hv
  by_cases h1 : v.1 = k.1
  · simp [h1, hk]
  · simp [h1]

theorem daily_filter_owner (df : List ARow) (w : String) :
    (daily_df df).filter (fun v => decide (v.1 = w)) =
      daily_df (df.filter (fun r => decide (r.owner = w))) := by
  unfold daily_df
  rw [List.filter_map, ← sortedKeys_filter_owner]
  have hpred : ((fun v : String × ℕ × ℚ => decide (v.1 = w)) ∘
      (fun k : String × ℕ => (k.1, k.2, dailySum df k))) =
      (fun k : String × ℕ => decide (k.1 = w)) := rfl
  rw [hpred]
  apply List.map_congr_left
  intro k hk
  have hkw : k.1 = w := by
    have := (List.mem_filter.mp hk).2
    simpa using this
  rw [dailySum_filter_owner df w k hkw]

theorem mem_sortedKeys_filter_owner (df : List ARow) (w : String) (k : String × ℕ)
    (hk : k ∈ sortedKeys (df.filter (fun r => decide (r.owner = w)))) : k.1 = w := by
  rw [mem_sortedKeys, mem_keys_iff] at hk
  exact hk.2

theorem daily_df_owner (df : List ARow) (w : String) :
    ∀ v ∈ daily_df (df.filter (fun r => decide (r.owner = w))), v.1 = w := by
  intro v hv
  unfold daily_df at hv
  obtain ⟨k, hk, hkv⟩ := List.mem_map.mp hv
  rw [← hkv]
  exact mem_sortedKeys_filter_owner df w k hk

theorem pairwise_imp_of_forall {α : Type} (R S : α → α → Prop) (P : α → Prop) :
    ∀ (l : List α), l.Pairwise R → (∀ x ∈ l, P x) →
      (∀ a b, P a → P b → R a b → S a b) → l.Pairwise S := by
  intro l
  induction l with
  | nil => intro _ _ _; exact List.Pairwise.nil
  | cons a t ih =>
    intro hR hP himp
    rw [List.pairwise_cons] at hR ⊢
    obtain ⟨ha, ht⟩ := hR
    refine ⟨fun b hb => himp a b (hP a (by simp)) (hP b (by simp [hb])) (ha b hb), ?_⟩
    exact ih ht (fun x hx => hP x (by simp [hx])) himp

theorem filtered_dates_sorted (df : List ARow) (w : String) :
    (((sortedKeys df).filter (fun k => decide (k.1 = w))).map
      (fun k => k.2)).Sorted (fun a b => a ≤ b) := by
  rw [List.Sorted, List.pairwise_map]
  apply pairwise_imp_of_forall keyLe _ (fun k : String × ℕ => k.1 = w)
  · exact (sortedKeys_sorted df).filter _
  · intro x hx
    have := (List.mem_filter.mp hx).2
    simpa using this
  · intro a b hpa hpb hab
    rcases hab with h | ⟨_, h⟩
    · exfalso; rw [hpa, hpb] at h; exact lt_irrefl _ h
    · exact h

/-- C6: restricted to any one owner, the daily cumulative series has its
groups in ascending date order, satisfies the running-sum recurrence
(`cumChain 0`: the first cumulative equals the first daily earning and
each later cumulative is the previous one plus that day's earning), its
last cumulative equals the sum of all that owner's daily earnings, and it
is exactly what the aggregator produces from that owner's rows alone — so
no other owner's rows can affect it. -/
theorem C6_daily_cumulative (df : List ARow) (w : String) :
    cumChain 0 ((create_daily_cumulative df).filter (fun p => decide (p.owner = w))) ∧
    (((create_daily_cumulative df).filter (fun p => decide (p.owner = w))).map
      DPoint.date).Sorted (fun a b => a ≤ b) ∧
    (∀ q : DPoint,
      ((create_daily_cumulative df).filter (fun p => decide (p.owner = w))).getLast? =
        some q →
      q.cumulative =
        (((create_daily_cumulative df).filter (fun p => decide (p.owner = w))).map
          DPoint.earning).sum) ∧
    (create_daily_cumulative df).filter (fun p => decide (p.owner = w)) =
      create_daily_cumulative (df.filter (fun r => decide (r.owner = w))) := by
  have hfil : (create_daily_cumulative df).filter (fun p => decide (p.owner = w)) =
      scanSum 0 ((daily_df df).filter (fun v => decide (v.1 = w))) := by
    unfold create_daily_cumulative
    exact addCum_filter w (daily_df df) (fun _ => 0)
  refine ⟨?_, ?_, ?_, ?_⟩
  · rw [hfil]
    exact cumChain_scanSum _ 0
  · rw [hfil, scanSum_map_date]
    unfold daily_df
    rw [List.filter_map, List.map_map]
    exact filtered_dates_sorted df w
  · intro q hq
    rw [hfil] at hq
    have hlast := scanSum_getLast _ 0 q hq
    rw [hfil, scanSum_map_earning, hlast, zero_add]
  · rw [hfil, daily_filter_owner]
    unfold create_daily_cumulative
    rw [addCum_all_owner w _ _ (daily_df_owner df w)]

unseal Rat.add Rat.sub Rat.mul Rat.inv in
/-- Witness for C6 at Scenario E (Alice: +10 on day 1, −5 on day 3;
Bob: +7 on day 2): Alice's filtered series is
`[(Alice, 1, 10, 10), (Alice, 3, −5, 5)]`, its last cumulative 5 equals
10 + (−5), and the recurrence holds from 0. -/
theorem C6_witness :
    ((create_daily_cumulative dfE).filter
        (fun p => decide (p.owner = "Alice"))).getLast? =
      some { owner := "Alice", date := 3, earning := -5, cumulative := 5 } ∧
    ({ owner := "Alice", date := 3, earning := -5, cumulative := 5 } : DPoint).cumulative =
      (((create_daily_cumulative dfE).filter
          (fun p => decide (p.owner = "Alice"))).map DPoint.earning).sum ∧
    cumChain 0 ((create_daily_cumulative dfE).filter
      (fun p => decide (p.owner = "Alice"))) := by
  refine ⟨by decide, ?_, (C6_daily_cumulative dfE "Alice").1⟩
  exact (C6_daily_cumulative dfE "Alice").2.2.1 _ (by decide)

/-! ### Helper lemmas for the pivoted chart -/

theorem ffillCol_getElem (l : List (Option ℚ)) :
    ∀ (prev : Option ℚ) (i : ℕ), i < l.length →
      (ffillCol prev l)[i]? = some (lastSome prev (l.take (i + 1))) := by
  induction l with
  | nil => intro prev i h; simp at h
  | cons a t ih =>
    intro prev i h
    cases a with
    | none =>
      cases i with
      | zero => simp [ffillCol, lastSome]
      | succ j =>
        have hj : j < t.length := by simpa using h
        show (prev :: ffillCol prev t)[j + 1]? = _
        rw [List.getElem?_cons_succ, ih prev j hj, List.take_succ_cons]
        rfl
    | some v =>
      cases i with
      | zero => simp [ffillCol, lastSome]
      | succ j =>
        have hj : j < t.length := by simpa using h
        show (some v :: ffillCol (some v) t)[j + 1]? = _
        rw [List.getElem?_cons_succ, ih (some v) j hj, List.take_succ_cons]
        rfl

theorem lastSome_all_none (l : List (Option ℚ)) :
    ∀ (prev : Option ℚ), (∀ x ∈ l, x = none) → lastSome prev l = prev := by
  induction l with
  | nil => intro prev _; rfl
  | cons a t ih =>
    intro prev h
    have ha : a = none := h a (by simp)
    subst ha
    exact ih prev (fun x hx => h x (by simp [hx]))

/-- C7: in the pivoted date × owner matrix after `ffill`, the cell of
owner `w` at the i-th date of the union-of-dates index is the last
non-empty pivot cell of `w` among the dates up to position i — a date on
which the owner has no daily row receives the owner's last known
cumulative, and if the owner has no row at any date up to position i the
cell stays empty (`none`), never zero. -/
theorem C7_pivot_forward_fill (df : List ARow) (w : String) (i d : ℕ)
    (hd : (allDates (create_daily_cumulative df))[i]? = some d) :
    (chartCol (create_daily_cumulative df) w)[i]? =
      some (lastSome none
        (((allDates (create_daily_cumulative df)).take (i + 1)).map
          (pivotCell (create_daily_cumulative df) w))) ∧
    ((∀ d2 ∈ (allDates (create_daily_cumulative df)).take (i + 1),
        pivotCell (create_daily_cumulative df) w d2 = none) →
      (chartCol (create_daily_cumulative df) w)[i]? = some none) := by
  have hlen : i < (allDates (create_daily_cumulative df)).length :=
    (List.getElem?_eq_some_iff.mp hd).1
  have hcell : i < ((allDates (create_daily_cumulative df)).map
      (pivotCell (create_daily_cumulative df) w)).length := by simpa using hlen
  have h1 : (chartCol (create_daily_cumulative df) w)[i]? =
      some (lastSome none
        ((((allDates (create_daily_cumulative df)).map
          (pivotCell (create_daily_cumulative df) w))).take (i + 1))) := by
    unfold chartCol
    exact ffillCol_getElem _ none i hcell
  rw [← List.map_take] at h1
  refine ⟨h1, fun hall => ?_⟩
  rw [h1]
  have hnone : ∀ x ∈ ((allDates (create_daily_cumulative df)).take (i + 1)).map
      (pivotCell (create_daily_cumulative df) w), x = none := by
    intro x hx
    obtain ⟨d2, hd2, hxeq⟩ := List.mem_map.mp hx
    rw [← hxeq]
    exact hall d2 hd2
  rw [lastSome_all_none _ none hnone]

unseal Rat.add Rat.sub Rat.mul Rat.inv in
/-- Witness for C7 at Scenario E: day 2 is the second date of the union
index, Alice has no daily row on day 2 but one on day 1 with cumulative
10, and the pivoted chart cell for Alice on day 2 is 10, carried
forward. -/
theorem C7_witness :
    (allDates (create_daily_cumulative dfE))[1]? = some 2 ∧
    pivotCell (create_daily_cumulative dfE) "Alice" 2 = none ∧
    pivotCell (create_daily_cumulative dfE) "Alice" 1 = some 10 ∧
    (chartCol (create_daily_cumulative dfE) "Alice")[1]? = some (some 10) := by
  refine ⟨by decide, by decide, by decide, ?_⟩
  have h := (C7_pivot_forward_fill dfE "Alice" 1 2 (by decide)).1
  rw [h]
  decide

/-! ### Decimal rendering is injective -/

theorem digitsVal_digitsBE (n : ℕ) : digitsVal (digitsBE n) = n := by
  induction n using Nat.strong_induction_on with
  | _ n ih =>
    by_cases h : n < 10
    · rw [digitsBE, dif_pos h]
      simp [digitsVal]
    · rw [digitsBE, dif_neg h]
      have hlt : n / 10 < n := Nat.div_lt_self (by omega) (by omega)
      have hv := ih (n / 10) hlt
      unfold digitsVal at hv ⊢
      rw [List.foldl_append, hv]
      simp [Nat.div_add_mod]

theorem digitsBE_lt (n : ℕ) : ∀ d ∈ digitsBE n, d < 10 := by
  induction n using Nat.strong_induction_on with
  | _ n ih =>
    by_cases h : n < 10
    · rw [digitsBE, dif_pos h]
      intro d hd
      simp at hd
      omega
    · rw [digitsBE, dif_neg h]
      intro d hd
      rcases List.mem_append.mp hd with hd1 | hd2
      · exact ih (n / 10) (Nat.div_lt_self (by omega) (by omega)) d hd1
      · simp at hd2
        subst hd2
        exact Nat.mod_lt _ (by omega)

theorem toDigitsCore_eq (n : ℕ) : ∀ (fuel : ℕ) (ds : List Char), n < fuel →
    Nat.toDigitsCore 10 fuel n ds = (digitsBE n).map Nat.digitChar ++ ds := by
  induction n using Nat.strong_induction_on with
  | _ n ih =>
    intro fuel ds hfuel
    cases fuel with
    | zero => omega
    | succ f =>
      by_cases h0 : n / 10 = 0
      · have h10 : n < 10 := by
          by_contra hge
          have h1 : 1 ≤ n / 10 := (Nat.le_div_iff_mul_le (by omega)).mpr (by omega)
          omega
        rw [show Nat.toDigitsCore 10 (f + 1) n ds =
            Nat.digitChar (n % 10) :: ds by simp [Nat.toDigitsCore, h0]]
        rw [digitsBE, dif_pos h10, Nat.mod_eq_of_lt h10]
        rfl
      · have h10 : ¬ n < 10 := by
          intro hlt
          exact h0 (Nat.div_eq_of_lt hlt)
        rw [digitsBE, dif_neg h10]
        rw [show Nat.toDigitsCore 10 (f + 1) n ds =
            Nat.toDigitsCore 10 f (n / 10) (Nat.digitChar (n % 10) :: ds) by
          simp [Nat.toDigitsCore, h0]]
        have hlt : n / 10 < n := Nat.div_lt_self (by omega) (by omega)
        have hf : n / 10 < f := by omega
        rw [ih (n / 10) hlt f _ hf]
        simp

theorem digitChar_inj_lt :
    ∀ d < 10, ∀ e < 10, Nat.digitChar d = Nat.digitChar e → d = e := by decide

theorem map_digitChar_inj :
    ∀ (l1 l2 : List ℕ), (∀ d ∈ l1, d < 10) → (∀ d ∈ l2, d < 10) →
      l1.map Nat.digitChar = l2.map Nat.digitChar → l1 = l2 := by
  intro l1
  induction l1 with
  | nil =>
    intro l2 _ _ h
    cases l2 with
    | nil => rfl
    | cons b t2 => simp at h
  | cons a t1 ih =>
    intro l2 h1 h2 h
    cases l2 with
    | nil => simp at h
    | cons b t2 =>
      simp only [List.map_cons, List.cons.injEq] at h
      have ha : a = b := digitChar_inj_lt a (h1 a (by simp)) b (h2 b (by simp)) h.1
      rw [ha, ih t2 (fun d hd => h1 d (by simp [hd])) (fun d hd => h2 d (by simp [hd])) h.2]

theorem nat_repr_inj (m n : ℕ) (h : Nat.repr m = Nat.repr n) : m = n := by
  unfold Nat.repr Nat.toDigits at h
  rw [toDigitsCore_eq m (m + 1) [] (Nat.lt_succ_self m),
      toDigitsCore_eq n (n + 1) [] (Nat.lt_succ_self n)] at h
  have hd : (digitsBE m).map Nat.digitChar ++ ([] : List Char) =
      (digitsBE n).map Nat.digitChar ++ [] := congrArg String.data h
  simp only [List.append_nil] at hd
  have hdig := map_digitChar_inj _ _ (digitsBE_lt m) (digitsBE_lt n) hd
  have := congrArg digitsVal hdig
  rwa [digitsVal_digitsBE, digitsVal_digitsBE] at this

theorem suffixed_ne (l : String) (a b : ℕ) (hab : a ≠ b) :
    l ++ "(" ++ Nat.repr a ++ ")" ≠ l ++ "(" ++ Nat.repr b ++ ")" := by
  intro h
  apply hab
  apply nat_repr_inj
  apply String.ext
  have hd := congrArg String.data h
  simp only [String.data_append, List.append_assoc] at hd
  have h1 := List.append_cancel_left hd
  have h2 := List.append_cancel_left h1
  exact List.append_cancel_right h2

theorem base_ne_suffixed (l : String) (a : ℕ) :
    l ≠ l ++ "(" ++ Nat.repr a ++ ")" := by
  intro h
  have hlen := congrArg String.length h
  simp only [String.length_append] at hlen
  have h1 : String.length "(" = 1 := rfl
  have h2 : String.length ")" = 1 := rfl
  omega

theorem count_take_lt {α : Type} [DecidableEq α] (labels : List α) (i j : ℕ) (l : α)
    (hij : i < j) (hi : labels[i]? = some l) :
    (labels.take i).count l + 1 ≤ (labels.take j).count l := by
  have hj : j = (i + 1) + (j - (i + 1)) := by omega
  rw [hj, List.take_add, List.count_append]
  have h1 : (labels.take (i + 1)).count l = (labels.take i).count l + 1 := by
    rw [List.take_succ, hi]
    simp [List.count_append]
  rw [h1]
  omega

theorem uniqueLabelsGo_getElem :
    ∀ (labels : List String) (counts : String → ℕ) (i : ℕ) (l : String),
      labels[i]? = some l →
      (uniqueLabelsGo counts labels)[i]? = some (
        if counts l + (labels.take i).count l = 0 then l
        else l ++ "(" ++ Nat.repr (counts l + (labels.take i).count l + 1) ++ ")") := by
  intro labels
  induction labels with
  | nil => intro counts i l h; simp at h
  | cons a rest ih =>
    intro counts i l h
    cases i with
    | zero =>
      simp only [List.getElem?_cons_zero, Option.some.injEq] at h
      subst h
      by_cases hc : counts a = 0
      · simp [uniqueLabelsGo, hc]
      · simp [uniqueLabelsGo, hc]
    | succ j =>
      have hj : rest[j]? = some l := by simpa using h
      by_cases hc : counts a = 0
      · rw [show uniqueLabelsGo counts (a :: rest) =
            a :: uniqueLabelsGo (fun x => if x = a then 1 else counts x) rest by
          simp [uniqueLabelsGo, hc]]
        rw [List.getElem?_cons_succ, ih _ j l hj]
        have hAB : (fun x => if x = a then 1 else counts x) l + (rest.take j).count l =
            counts l + ((a :: rest).take (j + 1)).count l := by
          by_cases hal : l = a
          · subst hal
            simp [List.take_succ_cons, List.count_cons, hc]
            omega
          · simp [List.take_succ_cons, List.count_cons, hal]
        rw [hAB]
      · rw [show uniqueLabelsGo counts (a :: rest) =
            (a ++ "(" ++ Nat.repr (counts a + 1) ++ ")") ::
              uniqueLabelsGo (fun x => if x = a then counts a + 1 else counts x) rest by
          simp [uniqueLabelsGo, hc]]
        rw [List.getElem?_cons_succ, ih _ j l hj]
        have hAB : (fun x => if x = a then counts a + 1 else counts x) l +
            (rest.take j).count l =
            counts l + ((a :: rest).take (j + 1)).count l := by
          by_cases hal : l = a
          · subst hal
            simp [List.take_succ_cons, List.count_cons]
            omega
          · simp [List.take_succ_cons, List.count_cons, hal]
        rw [hAB]

/-- C10 counterexample: the selected rows (A, B), (A, B(2)), (A, B) get
the labels "A - B", "A - B(2)", "A - B(2)" — the suffixing makes the
third label collide with the second row's base label, so displayed labels
are not pairwise distinct and two distinct transactions share one. -/
theorem C10_counterexample :
    create_unique_labels [mkLabel "A" "B", mkLabel "A" "B(2)", mkLabel "A" "B"] =
      ["A - B", "A - B(2)", "A - B(2)"] ∧
    ¬ (create_unique_labels
        [mkLabel "A" "B", mkLabel "A" "B(2)", mkLabel "A" "B"]).Nodup := by
  decide

/-- C10 (amended): each selected row's label is "owner - stock"; the k-th
occurrence of a repeated label gets the suffix "(k)" (first occurrence
unsuffixed), in order of occurrence, so two rows with the *same* base
label always receive distinct displayed labels; labels of rows with
different base labels can still collide (see the counterexample), so
global pairwise distinctness does not hold. -/
theorem C10_label_suffixes (labels : List String) (i j : ℕ) (l : String)
    (hi : labels[i]? = some l) :
    ((create_unique_labels labels)[i]? = some (
      if (labels.take i).count l = 0 then l
      else l ++ "(" ++ Nat.repr ((labels.take i).count l + 1) ++ ")")) ∧
    (i < j → labels[j]? = some l →
      (create_unique_labels labels)[i]? ≠ (create_unique_labels labels)[j]?) := by
  have hchar : ∀ (k : ℕ), labels[k]? = some l →
      (create_unique_labels labels)[k]? = some (
        if (labels.take k).count l = 0 then l
        else l ++ "(" ++ Nat.repr ((labels.take k).count l + 1) ++ ")") := by
    intro k hk
    have := uniqueLabelsGo_getElem labels (fun _ => 0) k l hk
    simpa using this
  refine ⟨hchar i hi, fun hij hjl => ?_⟩
  rw [hchar i hi, hchar j hjl]
  intro h
  rw [Option.some.injEq] at h
  have hcc := count_take_lt labels i j l hij hi
  by_cases hci : (labels.take i).count l = 0
  · rw [if_pos hci, if_neg (by omega)] at h
    exact base_ne_suffixed l _ h
  · rw [if_neg hci, if_neg (by omega)] at h
    exact suffixed_ne l _ _ (by omega) h

/-- Witness for C10: two rows labelled (A, B) get "A - B" and "A - B(2)",
which are distinct. -/
theorem C10_witness :
    (create_unique_labels [mkLabel "A" "B", mkLabel "A" "B"])[1]? =
      some "A - B(2)" ∧
    (create_unique_labels [mkLabel "A" "B", mkLabel "A" "B"])[0]? ≠
      (create_unique_labels [mkLabel "A" "B", mkLabel "A" "B"])[1]? := by
  constructor
  · have h := (C10_label_suffixes [mkLabel "A" "B", mkLabel "A" "B"] 1 0 "A - B"
      (by decide)).1
    rw [h]
    decide
  · exact (C10_label_suffixes [mkLabel "A" "B", mkLabel "A" "B"] 0 1 "A - B"
      rfl).2 (by decide) (by decide)

end Portfolio
